import Mathlib

/-!
# Verification of the JUCE `var` adapter for valijson

This development shallowly embeds
`include/valijson/adapters/juce_valijson_var_adapter.hpp` and proves the
spec's claims about it.

Two models are used:

* A pure tree model `JVar` of the observable value of a `juce::var`
  (the variant type: null, bool, int, int64, double, string, array,
  object).  JUCE's `var` itself is a third-party type outside this
  repository; its accessors (`isArray`, `isObject`, `getArray`,
  `dynamic_cast` to `DynamicObject`, conversion operators, `size`) are
  modelled from the spec's description of the variant as a tagged union.
  A `var` can hold a `ReferenceCountedObject` that is *not* a
  `DynamicObject`; `var::isObject()` is true for it, but the
  `dynamic_cast<DynamicObject*>` used by the adapter fails.  The
  constructor `JVar.otherObject` represents that case.
  The payload of a stored double is represented opaquely by its bit
  pattern (a `Nat`); no floating-point arithmetic occurs in the adapter.

* A heap model (`HVal`, `Heap`) for the freeze/deep-copy claims, where
  arrays and objects are reference-counted entities at addresses, as in
  JUCE, so that aliasing and mutation of the source document are
  expressible.
-/

/-- Observable value of a `juce::var` (tagged union). -/
inductive JVar : Type where
  | void : JVar
  | boolVal (b : Bool) : JVar
  | intVal (i : Int) : JVar
  | int64Val (i : Int) : JVar
  | doubleVal (bits : Nat) : JVar
  | stringVal (s : String) : JVar
  | arrayVal (elems : List JVar) : JVar
  | objectVal (props : List (String × JVar)) : JVar
  | otherObject : JVar

/-- `var::isVoid()`. -/
def JVar.isVoid : JVar → Bool
  | .void => true
  | _ => false

/-- `var::isBool()`. -/
def JVar.isBool : JVar → Bool
  | .boolVal _ => true
  | _ => false

/-- `var::isInt()`. -/
def JVar.isInt : JVar → Bool
  | .intVal _ => true
  | _ => false

/-- `var::isInt64()`. -/
def JVar.isInt64 : JVar → Bool
  | .int64Val _ => true
  | _ => false

/-- `var::isDouble()`. -/
def JVar.isDouble : JVar → Bool
  | .doubleVal _ => true
  | _ => false

/-- `var::isString()`. -/
def JVar.isString : JVar → Bool
  | .stringVal _ => true
  | _ => false

/-- `var::isArray()`. -/
def JVar.isArray : JVar → Bool
  | .arrayVal _ => true
  | _ => false

/-- `var::isObject()`: true whenever the var holds any
`ReferenceCountedObject`, whether or not it is a `DynamicObject`. -/
def JVar.isObject : JVar → Bool
  | .objectVal _ => true
  | .otherObject => true
  | _ => false

/-- `var::size()`: number of elements when the var is an array, else 0. -/
def JVar.size : JVar → Nat
  | .arrayVal xs => xs.length
  | _ => 0

/-- `var::getArray()`: the underlying `Array<var>` when present. -/
def JVar.getArray : JVar → Option (List JVar)
  | .arrayVal xs => some xs
  | _ => none

/-- `dynamic_cast<DynamicObject*> (value.getObject())`: the property list
of the underlying `DynamicObject`, when the var holds one; `none` models
a null result of the cast (non-object vars, and objects that are not
`DynamicObject`s). -/
def JVar.getDynamicObject : JVar → Option (List (String × JVar))
  | .objectVal ps => some ps
  | _ => none

/-- `var::operator bool` as used under an `isBool()` guard. -/
def JVar.toBool : JVar → Bool
  | .boolVal b => b
  | _ => false

/-- `var::operator double` as used under an `isDouble()` guard
(the stored bit pattern). -/
def JVar.toDouble : JVar → Nat
  | .doubleVal d => d
  | _ => 0

/-- `var::operator int64` as used under an `isInt() || isInt64()` guard. -/
def JVar.toInt64 : JVar → Int
  | .intVal i => i
  | .int64Val i => i
  | _ => 0

/-- `value.toString().toStdString()` as used under an `isString()` guard. -/
def JVar.toStdString : JVar → String
  | .stringVal s => s
  | _ => ""

/-!
## `JuceVarValue`

Wrapper over one `var`.  The C++ out-parameter extractors
`bool getX (T& result)` are embedded in state-passing style: the input
`result` is the value of the output variable before the call, and the
function returns the pair (return value, value of the output variable
after the call); a failing extractor leaves the output untouched.
-/

/-- `JuceVarValue`: light weight wrapper holding one `var`. -/
structure JuceVarValue where
  value : JVar

/-- The empty-object singleton referenced by `JuceVarValue()`
(`static const var object (new DynamicObject())`). -/
def JuceVarValue.emptyObject : JVar := .objectVal []

/-- `JuceVarValue()`: wraps the empty object singleton. -/
def JuceVarValue.default : JuceVarValue := ⟨JuceVarValue.emptyObject⟩

/-- `JuceVarValue::isArray`. -/
def JuceVarValue.isArray (v : JuceVarValue) : Bool := v.value.isArray

/-- `JuceVarValue::isBool`. -/
def JuceVarValue.isBool (v : JuceVarValue) : Bool := v.value.isBool

/-- `JuceVarValue::isDouble`. -/
def JuceVarValue.isDouble (v : JuceVarValue) : Bool := v.value.isDouble

/-- `JuceVarValue::isInteger`. -/
def JuceVarValue.isInteger (v : JuceVarValue) : Bool :=
  v.value.isInt || v.value.isInt64

/-- `JuceVarValue::isNull`. -/
def JuceVarValue.isNull (v : JuceVarValue) : Bool := v.value.isVoid

/-- `JuceVarValue::isNumber`. -/
def JuceVarValue.isNumber (v : JuceVarValue) : Bool :=
  v.value.isDouble || v.isInteger

/-- `JuceVarValue::isObject`. -/
def JuceVarValue.isObject (v : JuceVarValue) : Bool := v.value.isObject

/-- `JuceVarValue::isString`. -/
def JuceVarValue.isString (v : JuceVarValue) : Bool := v.value.isString

/-- `JuceVarValue::getBool (bool& result)`. -/
def JuceVarValue.getBool (v : JuceVarValue) (result : Bool) : Bool × Bool :=
  if v.value.isBool then (true, v.value.toBool) else (false, result)

/-- `JuceVarValue::getDouble (double& result)`. -/
def JuceVarValue.getDouble (v : JuceVarValue) (result : Nat) : Bool × Nat :=
  if v.value.isDouble then (true, v.value.toDouble) else (false, result)

/-- `JuceVarValue::getInteger (int64_t& result)`. -/
def JuceVarValue.getInteger (v : JuceVarValue) (result : Int) : Bool × Int :=
  if v.isInteger then (true, v.value.toInt64) else (false, result)

/-- `JuceVarValue::getString (std::string& result)`. -/
def JuceVarValue.getString (v : JuceVarValue) (result : String) :
    Bool × String :=
  if v.value.isString then (true, v.value.toStdString) else (false, result)

/-- `JuceVarValue::getArraySize (size_t& result)`. -/
def JuceVarValue.getArraySize (v : JuceVarValue) (result : Nat) :
    Bool × Nat :=
  if v.value.isArray then (true, v.value.size) else (false, result)

/-- `JuceVarValue::getObjectSize (size_t& result)`: succeeds exactly when
the `dynamic_cast` to `DynamicObject` succeeds. -/
def JuceVarValue.getObjectSize (v : JuceVarValue) (result : Nat) :
    Bool × Nat :=
  match v.value.getDynamicObject with
  | some props => (true, props.length)
  | none => (false, result)

/-- `JuceVarValue::hasStrictTypes`. -/
def JuceVarValue.hasStrictTypes : Bool := true

/-!
## `JuceVarAdapter`

`JuceVarAdapter` is `BasicAdapter<..., JuceVarValue>`; observably it
wraps one `JuceVarValue`.  The default constructor wraps a
default-constructed `JuceVarValue` (the empty object singleton).
-/

/-- `JuceVarAdapter`. -/
structure JuceVarAdapter where
  value : JuceVarValue

/-- `JuceVarAdapter()`. -/
def JuceVarAdapter.default : JuceVarAdapter := ⟨JuceVarValue.default⟩

/-- `JuceVarAdapter (const var& value)`. -/
def mkAdapter (v : JVar) : JuceVarAdapter := ⟨⟨v⟩⟩

/-!
## `JuceVarArray` and its iterator

The array iterator holds a raw `var*` into the underlying `Array<var>`.
It is modelled as `Option Nat`: `none` is a null pointer, `some i` is
the pointer `array->begin() + i` into the array the iterator was
obtained from.  Pointer equality of two iterators from the same array is
offset equality.
-/

/-- `JuceVarArray`: light weight wrapper holding one `var` assumed to be
an array. -/
structure JuceVarArray where
  value : JVar

/-- The empty-array singleton referenced by `JuceVarArray()`
(`static const var array ((Array<var>()))`). -/
def JuceVarArray.emptyArray : JVar := .arrayVal []

/-- `JuceVarArray()`: wraps the empty array singleton. -/
def JuceVarArray.default : JuceVarArray := ⟨JuceVarArray.emptyArray⟩

/-- `JuceVarArray (const var& valueToUse)`: throws unless
`value.isArray()`.  The `Except` result models normal completion vs the
thrown `std::runtime_error`. -/
def mkJuceVarArray (valueToUse : JVar) : Except String JuceVarArray :=
  if valueToUse.isArray then Except.ok ⟨valueToUse⟩
  else Except.error "Value is not an array."

/-- `JuceVarArray::size`. -/
def JuceVarArray.size (a : JuceVarArray) : Nat := a.value.size

/-- `JuceVarArray::begin`: `array->begin()` when `getArray()` is
non-null, else a null iterator. -/
def JuceVarArray.begin (a : JuceVarArray) : Option Nat :=
  match a.value.getArray with
  | some _ => some 0
  | none => none

/-- `JuceVarArray::end`: `array->end()` when `getArray()` is non-null,
else a null iterator. -/
def JuceVarArray.end_ (a : JuceVarArray) : Option Nat :=
  match a.value.getArray with
  | some xs => some xs.length
  | none => none

/-- `JuceVarArrayValueIterator::operator++` (`itr++` on the raw
pointer). -/
def arrayIterNext (it : Option Nat) : Option Nat := it.map (· + 1)

/-- `JuceVarArrayValueIterator::advance` (`itr += n`). -/
def arrayIterAdvance (it : Option Nat) (n : Nat) : Option Nat :=
  it.map (· + n)

/-- `k` successive applications of `operator++`. -/
def arrayIterSteps (k : Nat) (it : Option Nat) : Option Nat :=
  match k with
  | 0 => it
  | k + 1 => arrayIterSteps k (arrayIterNext it)

/-- `JuceVarArrayValueIterator::operator*`: `JuceVarAdapter (*itr)`.
Dereference is only defined while the pointer points at an element of
the array the iterator came from; `none` models the undefined
dereference of a null or past-the-end pointer. -/
def JuceVarArray.derefIter (a : JuceVarArray) (it : Option Nat) :
    Option JuceVarAdapter :=
  match it, a.value.getArray with
  | some i, some xs => (xs[i]?).map mkAdapter
  | _, _ => none

/-!
## `JuceVarObject` and its iterator

The object iterator holds a raw `NamedValueSet::NamedValue*` into the
`DynamicObject`'s property set, modelled as `Option Nat` in the same way
as the array iterator.
-/

/-- `JuceVarObjectMember`: `std::pair<std::string, JuceVarAdapter>`. -/
def JuceVarObjectMember : Type := String × JuceVarAdapter

/-- `JuceVarObject`: light weight wrapper holding one `var` assumed to
be an object. -/
structure JuceVarObject where
  value : JVar

/-- The empty-object singleton referenced by `JuceVarObject()`. -/
def JuceVarObject.emptyObject : JVar := .objectVal []

/-- `JuceVarObject()`: wraps the empty object singleton. -/
def JuceVarObject.default : JuceVarObject := ⟨JuceVarObject.emptyObject⟩

/-- `JuceVarObject (const var& valueToUse)`: throws unless
`value.isObject()`. -/
def mkJuceVarObject (valueToUse : JVar) : Except String JuceVarObject :=
  if valueToUse.isObject then Except.ok ⟨valueToUse⟩
  else Except.error "Value is not an object."

/-- `JuceVarObject::size`: the property count of the underlying
`DynamicObject`, or 0 when the `dynamic_cast` yields null. -/
def JuceVarObject.size (o : JuceVarObject) : Nat :=
  match o.value.getDynamicObject with
  | some props => props.length
  | none => 0

/-- `JuceVarObject::begin`: `properties.begin()` when the
`DynamicObject` is present, else a null iterator. -/
def JuceVarObject.begin (o : JuceVarObject) : Option Nat :=
  match o.value.getDynamicObject with
  | some _ => some 0
  | none => none

/-- `JuceVarObject::end`: `properties.end()` when the `DynamicObject` is
present, else a null iterator. -/
def JuceVarObject.end_ (o : JuceVarObject) : Option Nat :=
  match o.value.getDynamicObject with
  | some props => some props.length
  | none => none

/-- The scan loop inside `JuceVarObject::find`: starting from
`properties.begin()`, step until the member name equals the searched
name (JUCE `Identifier` equality is exact, case-sensitive string
equality), returning the offset reached; a failed scan returns the
length, i.e. the `end()` offset. -/
def findScan (props : List (String × JVar)) (propertyName : String) : Nat :=
  match props with
  | [] => 0
  | (n, _) :: rest =>
    if n = propertyName then 0 else findScan rest propertyName + 1

/-- `JuceVarObject::find (const std::string& propertyName)`: linear scan
over the `DynamicObject`'s properties, or a null iterator when the
`dynamic_cast` yields null. -/
def JuceVarObject.find (o : JuceVarObject) (propertyName : String) :
    Option Nat :=
  match o.value.getDynamicObject with
  | some props => some (findScan props propertyName)
  | none => none

/-- `JuceVarObjectMemberIterator::operator++`. -/
def objIterNext (it : Option Nat) : Option Nat := it.map (· + 1)

/-- `JuceVarObjectMemberIterator::operator*`: a null iterator
dereferences (by an explicit guard in the source) to
`("", JuceVarAdapter())`; a pointer at a live member yields its
(name, value) pair; dereferencing a past-the-end pointer is undefined,
modelled as `none`. -/
def JuceVarObject.derefIter (o : JuceVarObject) (it : Option Nat) :
    Option JuceVarObjectMember :=
  match it with
  | none => some (("", JuceVarAdapter.default) : String × JuceVarAdapter)
  | some i =>
    match o.value.getDynamicObject with
    | some props => (props[i]?).map fun p => ((p.1, mkAdapter p.2) : String × JuceVarAdapter)
    | none => none

/-!
## Heap model for freeze / deep copy (claim C3)

In JUCE, arrays (`Array<var>`) and objects (`DynamicObject`) held by a
`var` are reference-counted entities: copying a `var` shares the entity,
and mutating the document through one alias is visible through all
others.  `HVal` is a `var` whose composite payloads are addresses into a
`Heap`; `denoteV` reads off the observable `JVar` value (with fuel,
since an arbitrary heap may contain reference cycles).
-/

/-- A `var` in the heap model: composite payloads are addresses. -/
inductive HVal : Type where
  | void : HVal
  | boolVal (b : Bool) : HVal
  | intVal (i : Int) : HVal
  | int64Val (i : Int) : HVal
  | doubleVal (bits : Nat) : HVal
  | stringVal (s : String) : HVal
  | arrayRef (a : Nat) : HVal
  | objectRef (b : Nat) : HVal

/-- The reference-counted entities of a document: `arrays[a]` is the
contents of the `Array<var>` at address `a`, `objects[b]` the property
set of the `DynamicObject` at address `b`. -/
structure Heap where
  arrays : List (List HVal)
  objects : List (List (String × HVal))

/-- Observable value of a heap-model `var`.  `fuel` bounds the depth of
reference chasing; `none` means the fuel ran out (e.g. on a cyclic
document). -/
def denoteV : Nat → Heap → HVal → Option JVar
  | 0, _, _ => none
  | f + 1, h, v =>
    match v with
    | .void => some .void
    | .boolVal b => some (.boolVal b)
    | .intVal i => some (.intVal i)
    | .int64Val i => some (.int64Val i)
    | .doubleVal d => some (.doubleVal d)
    | .stringVal s => some (.stringVal s)
    | .arrayRef a =>
      (h.arrays[a]?).bind fun xs =>
        (xs.foldr (fun x acc => (denoteV f h x).bind fun tx =>
          acc.map fun ts => tx :: ts) (some [])).map JVar.arrayVal
    | .objectRef b =>
      (h.objects[b]?).bind fun ps =>
        (ps.foldr (fun p acc => (denoteV f h p.2).bind fun tv =>
          acc.map fun ts => (p.1, tv) :: ts) (some [])).map JVar.objectVal

/-- Observable values of the elements of an array entity. -/
def denoteL (f : Nat) (h : Heap) (xs : List HVal) : Option (List JVar) :=
  xs.foldr (fun x acc => (denoteV f h x).bind fun tx =>
    acc.map fun ts => tx :: ts) (some [])

/-- Observable values of the properties of an object entity. -/
def denoteP (f : Nat) (h : Heap) (ps : List (String × HVal)) :
    Option (List (String × JVar)) :=
  ps.foldr (fun p acc => (denoteV f h p.2).bind fun tv =>
    acc.map fun ts => (p.1, tv) :: ts) (some [])

theorem denoteV_arrayRef (f : Nat) (h : Heap) (a : Nat) :
    denoteV (f + 1) h (.arrayRef a) =
      (h.arrays[a]?).bind fun xs => (denoteL f h xs).map JVar.arrayVal :=
  rfl

theorem denoteV_objectRef (f : Nat) (h : Heap) (b : Nat) :
    denoteV (f + 1) h (.objectRef b) =
      (h.objects[b]?).bind fun ps => (denoteP f h ps).map JVar.objectVal :=
  rfl

theorem denoteL_nil (f : Nat) (h : Heap) : denoteL f h [] = some [] := rfl

theorem denoteL_cons (f : Nat) (h : Heap) (x : HVal) (xs : List HVal) :
    denoteL f h (x :: xs) =
      (denoteV f h x).bind fun tx =>
        (denoteL f h xs).map fun ts => tx :: ts :=
  rfl

theorem denoteP_nil (f : Nat) (h : Heap) : denoteP f h [] = some [] := rfl

theorem denoteP_cons (f : Nat) (h : Heap) (p : String × HVal)
    (ps : List (String × HVal)) :
    denoteP f h (p :: ps) =
      (denoteV f h p.2).bind fun tv =>
        (denoteP f h ps).map fun ts => (p.1, tv) :: ts :=
  rfl

mutual

/-- Modelled from the spec: the allocation half of `juce::var::clone()`
(a function of JUCE, not of this repository).  Per the spec, freeze
"performs an immediate deep copy severing all sharing with the source";
`installV` places a pure tree in the heap, allocating a fresh address
for every composite node (children first, then the parent appended at
the top of the respective store).  A non-`DynamicObject` object value is
outside the spec's variant domain; JUCE clones it to a void var. -/
def installV : JVar → Heap → HVal × Heap
  | .void, h => (.void, h)
  | .boolVal b, h => (.boolVal b, h)
  | .intVal i, h => (.intVal i, h)
  | .int64Val i, h => (.int64Val i, h)
  | .doubleVal d, h => (.doubleVal d, h)
  | .stringVal s, h => (.stringVal s, h)
  | .otherObject, h => (.void, h)
  | .arrayVal ts, h =>
    let r := installL ts h
    (.arrayRef r.2.arrays.length, ⟨r.2.arrays ++ [r.1], r.2.objects⟩)
  | .objectVal qs, h =>
    let r := installP qs h
    (.objectRef r.2.objects.length, ⟨r.2.arrays, r.2.objects ++ [r.1]⟩)
termination_by t h => sizeOf t

/-- Install the elements of an array, left to right, threading the
heap. -/
def installL : List JVar → Heap → List HVal × Heap
  | [], h => ([], h)
  | t :: ts, h =>
    let r1 := installV t h
    let r2 := installL ts r1.2
    (r1.1 :: r2.1, r2.2)
termination_by ts h => sizeOf ts

/-- Install the properties of an object, left to right, threading the
heap. -/
def installP : List (String × JVar) → Heap → List (String × HVal) × Heap
  | [], h => ([], h)
  | (n, t) :: qs, h =>
    let r1 := installV t h
    let r2 := installP qs r1.2
    ((n, r1.1) :: r2.1, r2.2)
termination_by qs h => sizeOf qs

end

/-- Modelled from the spec: `juce::var::clone()` — read off the
observable value of the source and place an independent copy of it at
fresh addresses. -/
def varClone (f : Nat) (h : Heap) (v : HVal) : Option (HVal × Heap) :=
  (denoteV f h v).map fun t => installV t h

/-- `JuceVarValue::freeze` / `JuceVarFrozenValue (const var& source)`:
the frozen snapshot stores `source.clone()`. -/
def freezeH (f : Nat) (h : Heap) (source : HVal) : Option (HVal × Heap) :=
  varClone f h source

/-- `JuceVarFrozenValue::clone`: `new JuceVarFrozenValue (value)`, a
further deep copy of the stored value. -/
def frozenCloneH (f : Nat) (h : Heap) (stored : HVal) :
    Option (HVal × Heap) :=
  varClone f h stored

/-- Mutate the source document: replace the contents of the array entity
at address `a`. -/
def Heap.setArray (h : Heap) (a : Nat) (xs : List HVal) : Heap :=
  ⟨h.arrays.set a xs, h.objects⟩

/-- Mutate the source document: replace the property set of the object
entity at address `b`. -/
def Heap.setObject (h : Heap) (b : Nat) (ps : List (String × HVal)) : Heap :=
  ⟨h.arrays, h.objects.set b ps⟩

theorem installV_void (h : Heap) : installV .void h = (.void, h) := by
  simp [installV]

theorem installV_boolVal (b : Bool) (h : Heap) :
    installV (.boolVal b) h = (.boolVal b, h) := by
  simp [installV]

theorem installV_intVal (i : Int) (h : Heap) :
    installV (.intVal i) h = (.intVal i, h) := by
  simp [installV]

theorem installV_int64Val (i : Int) (h : Heap) :
    installV (.int64Val i) h = (.int64Val i, h) := by
  simp [installV]

theorem installV_doubleVal (d : Nat) (h : Heap) :
    installV (.doubleVal d) h = (.doubleVal d, h) := by
  simp [installV]

theorem installV_stringVal (s : String) (h : Heap) :
    installV (.stringVal s) h = (.stringVal s, h) := by
  simp [installV]

theorem installV_arrayVal (ts : List JVar) (h : Heap) :
    installV (.arrayVal ts) h =
      (.arrayRef (installL ts h).2.arrays.length,
        ⟨(installL ts h).2.arrays ++ [(installL ts h).1],
          (installL ts h).2.objects⟩) := by
  simp [installV]

theorem installV_objectVal (qs : List (String × JVar)) (h : Heap) :
    installV (.objectVal qs) h =
      (.objectRef (installP qs h).2.objects.length,
        ⟨(installP qs h).2.arrays,
          (installP qs h).2.objects ++ [(installP qs h).1]⟩) := by
  simp [installV]

theorem installL_nil (h : Heap) : installL [] h = ([], h) := by
  simp [installL]

theorem installL_cons (t : JVar) (ts : List JVar) (h : Heap) :
    installL (t :: ts) h =
      ((installV t h).1 :: (installL ts (installV t h).2).1,
        (installL ts (installV t h).2).2) := by
  simp [installL]

theorem installP_nil (h : Heap) : installP [] h = ([], h) := by
  simp [installP]

theorem installP_cons (n : String) (t : JVar) (qs : List (String × JVar))
    (h : Heap) :
    installP ((n, t) :: qs) h =
      ((n, (installV t h).1) :: (installP qs (installV t h).2).1,
        (installP qs (installV t h).2).2) := by
  simp [installP]

/-- Every `JVar` has positive size. -/
theorem JVar.one_le_sizeOf (t : JVar) : 1 ≤ sizeOf t := by
  cases t <;> simp_arith

/-- The reading heap `h''` agrees with `hN` on every array address in
`[loA, hiA)` and every object address in `[loB, hiB)`. -/
def agreeOn (loA hiA loB hiB : Nat) (hN h'' : Heap) : Prop :=
  (∀ a, loA ≤ a → a < hiA → h''.arrays[a]? = hN.arrays[a]?) ∧
  (∀ b, loB ≤ b → b < hiB → h''.objects[b]? = hN.objects[b]?)

theorem agreeOn_refl (loA hiA loB hiB : Nat) (hN : Heap) :
    agreeOn loA hiA loB hiB hN hN :=
  ⟨fun _ _ _ => rfl, fun _ _ _ => rfl⟩

/-- Installing `t` only appends to the heap, and the installed value
denotes `t` in every heap that agrees with the post-install heap on the
freshly allocated address range. -/
def installOK (t : JVar) : Prop :=
  ∀ h : Heap,
    (∃ e, (installV t h).2.arrays = h.arrays ++ e) ∧
    (∃ e, (installV t h).2.objects = h.objects ++ e) ∧
    ∀ (h'' : Heap) (g : Nat), sizeOf t ≤ g →
      agreeOn h.arrays.length (installV t h).2.arrays.length
        h.objects.length (installV t h).2.objects.length
        (installV t h).2 h'' →
      denoteV g h'' (installV t h).1 = some t

/-- Listwise analogue of `installOK` for array elements. -/
def installLOK (ts : List JVar) : Prop :=
  ∀ h : Heap,
    (∃ e, (installL ts h).2.arrays = h.arrays ++ e) ∧
    (∃ e, (installL ts h).2.objects = h.objects ++ e) ∧
    ∀ (h'' : Heap) (g : Nat), sizeOf ts ≤ g + 1 →
      agreeOn h.arrays.length (installL ts h).2.arrays.length
        h.objects.length (installL ts h).2.objects.length
        (installL ts h).2 h'' →
      denoteL g h'' (installL ts h).1 = some ts

/-- Listwise analogue of `installOK` for object properties. -/
def installPOK (qs : List (String × JVar)) : Prop :=
  ∀ h : Heap,
    (∃ e, (installP qs h).2.arrays = h.arrays ++ e) ∧
    (∃ e, (installP qs h).2.objects = h.objects ++ e) ∧
    ∀ (h'' : Heap) (g : Nat), sizeOf qs ≤ g + 1 →
      agreeOn h.arrays.length (installP qs h).2.arrays.length
        h.objects.length (installP qs h).2.objects.length
        (installP qs h).2 h'' →
      denoteP g h'' (installP qs h).1 = some qs

theorem installOK_scalar (t : JVar) (w : HVal)
    (hi : ∀ h, installV t h = (w, h))
    (hd : ∀ (g : Nat) (h'' : Heap), denoteV (g + 1) h'' w = some t) :
    installOK t := by
  intro h
  refine ⟨⟨[], by rw [hi]; simp⟩, ⟨[], by rw [hi]; simp⟩, ?_⟩
  intro h'' g hg _
  obtain ⟨g', rfl⟩ : ∃ g', g = g' + 1 :=
    ⟨g - 1, by have := JVar.one_le_sizeOf t; omega⟩
  rw [hi]
  exact hd g' h''

/-- Every list has positive size. -/
theorem one_le_sizeOf_list {α : Type} [SizeOf α] (l : List α) :
    1 ≤ sizeOf l := by
  cases l <;> simp_arith

theorem installLOK_of (f : Nat) (h0 : Heap)
    (hIH : ∀ (v : HVal) (t : JVar), denoteV f h0 v = some t → installOK t) :
    ∀ (xs : List HVal) (ts : List JVar),
      denoteL f h0 xs = some ts → installLOK ts := by
  intro xs
  induction xs with
  | nil =>
    intro ts hts
    rw [denoteL_nil] at hts
    cases hts
    intro h
    refine ⟨⟨[], by rw [installL_nil]; simp⟩,
      ⟨[], by rw [installL_nil]; simp⟩, ?_⟩
    intro h'' g _ _
    rw [installL_nil]
    exact denoteL_nil g h''
  | cons x xs ihx =>
    intro ts hts
    rw [denoteL_cons, Option.bind_eq_some] at hts
    obtain ⟨tx, hx, hmap⟩ := hts
    rw [Option.map_eq_some'] at hmap
    obtain ⟨ts', hts', rfl⟩ := hmap
    have hOKx : installOK tx := hIH x tx hx
    have hOKs : installLOK ts' := ihx ts' hts'
    intro h
    obtain ⟨⟨e1, he1⟩, ⟨f1, hf1⟩, hdx⟩ := hOKx h
    obtain ⟨⟨e2, he2⟩, ⟨f2, hf2⟩, hds⟩ := hOKs (installV tx h).2
    rw [installL_cons]
    have hszx : 1 ≤ sizeOf tx := JVar.one_le_sizeOf tx
    have hszs : 1 ≤ sizeOf ts' := one_le_sizeOf_list ts'
    have hsz : sizeOf (tx :: ts') = 1 + sizeOf tx + sizeOf ts' := by
      simp_arith
    refine ⟨⟨e1 ++ e2, by rw [he2, he1, List.append_assoc]⟩,
      ⟨f1 ++ f2, by rw [hf2, hf1, List.append_assoc]⟩, ?_⟩
    intro h'' g hg hagree
    have hagA : ∀ a, h.arrays.length ≤ a →
        a < (installL ts' (installV tx h).2).2.arrays.length →
        h''.arrays[a]? = (installL ts' (installV tx h).2).2.arrays[a]? :=
      fun a ha1 ha2 => hagree.1 a ha1 ha2
    have hagB : ∀ b, h.objects.length ≤ b →
        b < (installL ts' (installV tx h).2).2.objects.length →
        h''.objects[b]? = (installL ts' (installV tx h).2).2.objects[b]? :=
      fun b hb1 hb2 => hagree.2 b hb1 hb2
    rw [hsz] at hg
    have hlenA1 : (installV tx h).2.arrays.length =
        h.arrays.length + e1.length := by rw [he1]; simp
    have hlenB1 : (installV tx h).2.objects.length =
        h.objects.length + f1.length := by rw [hf1]; simp
    have hlenA2 : (installL ts' (installV tx h).2).2.arrays.length =
        (installV tx h).2.arrays.length + e2.length := by rw [he2]; simp
    have hlenB2 : (installL ts' (installV tx h).2).2.objects.length =
        (installV tx h).2.objects.length + f2.length := by rw [hf2]; simp
    have hhead : denoteV g h'' (installV tx h).1 = some tx := by
      apply hdx h'' g (by omega)
      constructor
      · intro a ha1 ha2
        have step1 : h''.arrays[a]? =
            (installL ts' (installV tx h).2).2.arrays[a]? :=
          hagA a ha1 (by omega)
        rw [step1, he2]
        exact List.getElem?_append_left ha2
      · intro b hb1 hb2
        have step1 : h''.objects[b]? =
            (installL ts' (installV tx h).2).2.objects[b]? :=
          hagB b hb1 (by omega)
        rw [step1, hf2]
        exact List.getElem?_append_left hb2
    have htail : denoteL g h'' (installL ts' (installV tx h).2).1 =
        some ts' := by
      apply hds h'' g (by omega)
      constructor
      · intro a ha1 ha2
        exact hagA a (by omega) ha2
      · intro b hb1 hb2
        exact hagB b (by omega) hb2
    rw [denoteL_cons, hhead]
    simp [htail]

theorem installPOK_of (f : Nat) (h0 : Heap)
    (hIH : ∀ (v : HVal) (t : JVar), denoteV f h0 v = some t → installOK t) :
    ∀ (ps : List (String × HVal)) (qs : List (String × JVar)),
      denoteP f h0 ps = some qs → installPOK qs := by
  intro ps
  induction ps with
  | nil =>
    intro qs hqs
    rw [denoteP_nil] at hqs
    cases hqs
    intro h
    refine ⟨⟨[], by rw [installP_nil]; simp⟩,
      ⟨[], by rw [installP_nil]; simp⟩, ?_⟩
    intro h'' g _ _
    rw [installP_nil]
    exact denoteP_nil g h''
  | cons p ps ihp =>
    intro qs hqs
    rw [denoteP_cons, Option.bind_eq_some] at hqs
    obtain ⟨tv, hv, hmap⟩ := hqs
    rw [Option.map_eq_some'] at hmap
    obtain ⟨qs', hqs', rfl⟩ := hmap
    have hOKv : installOK tv := hIH p.2 tv hv
    have hOKs : installPOK qs' := ihp qs' hqs'
    intro h
    obtain ⟨⟨e1, he1⟩, ⟨f1, hf1⟩, hdv⟩ := hOKv h
    obtain ⟨⟨e2, he2⟩, ⟨f2, hf2⟩, hds⟩ := hOKs (installV tv h).2
    have hinst : installP ((p.1, tv) :: qs') h =
        ((p.1, (installV tv h).1) :: (installP qs' (installV tv h).2).1,
          (installP qs' (installV tv h).2).2) := installP_cons p.1 tv qs' h
    rw [hinst]
    have hszv : 1 ≤ sizeOf tv := JVar.one_le_sizeOf tv
    have hszs : 1 ≤ sizeOf qs' := one_le_sizeOf_list qs'
    have hsz : sizeOf ((p.1, tv) :: qs') =
        1 + (1 + sizeOf p.1 + sizeOf tv) + sizeOf qs' := by
      simp_arith
    refine ⟨⟨e1 ++ e2, by rw [he2, he1, List.append_assoc]⟩,
      ⟨f1 ++ f2, by rw [hf2, hf1, List.append_assoc]⟩, ?_⟩
    intro h'' g hg hagree
    have hagA : ∀ a, h.arrays.length ≤ a →
        a < (installP qs' (installV tv h).2).2.arrays.length →
        h''.arrays[a]? = (installP qs' (installV tv h).2).2.arrays[a]? :=
      fun a ha1 ha2 => hagree.1 a ha1 ha2
    have hagB : ∀ b, h.objects.length ≤ b →
        b < (installP qs' (installV tv h).2).2.objects.length →
        h''.objects[b]? = (installP qs' (installV tv h).2).2.objects[b]? :=
      fun b hb1 hb2 => hagree.2 b hb1 hb2
    rw [hsz] at hg
    have hlenA1 : (installV tv h).2.arrays.length =
        h.arrays.length + e1.length := by rw [he1]; simp
    have hlenB1 : (installV tv h).2.objects.length =
        h.objects.length + f1.length := by rw [hf1]; simp
    have hlenA2 : (installP qs' (installV tv h).2).2.arrays.length =
        (installV tv h).2.arrays.length + e2.length := by rw [he2]; simp
    have hlenB2 : (installP qs' (installV tv h).2).2.objects.length =
        (installV tv h).2.objects.length + f2.length := by rw [hf2]; simp
    have hhead : denoteV g h'' (installV tv h).1 = some tv := by
      apply hdv h'' g (by omega)
      constructor
      · intro a ha1 ha2
        have step1 : h''.arrays[a]? =
            (installP qs' (installV tv h).2).2.arrays[a]? :=
          hagA a ha1 (by omega)
        rw [step1, he2]
        exact List.getElem?_append_left ha2
      · intro b hb1 hb2
        have step1 : h''.objects[b]? =
            (installP qs' (installV tv h).2).2.objects[b]? :=
          hagB b hb1 (by omega)
        rw [step1, hf2]
        exact List.getElem?_append_left hb2
    have htail : denoteP g h'' (installP qs' (installV tv h).2).1 =
        some qs' := by
      apply hds h'' g (by omega)
      constructor
      · intro a ha1 ha2
        exact hagA a (by omega) ha2
      · intro b hb1 hb2
        exact hagB b (by omega) hb2
    rw [denoteP_cons, hhead]
    simp [htail]

theorem installOK_arrayVal (ts : List JVar) (hts : installLOK ts) :
    installOK (.arrayVal ts) := by
  intro h
  obtain ⟨⟨e1, he1⟩, ⟨f1, hf1⟩, hden⟩ := hts h
  have hinstF : (installV (.arrayVal ts) h).1 =
      .arrayRef (installL ts h).2.arrays.length := by rw [installV_arrayVal]
  have hinstA : (installV (.arrayVal ts) h).2.arrays =
      (installL ts h).2.arrays ++ [(installL ts h).1] := by
    rw [installV_arrayVal]
  have hinstB : (installV (.arrayVal ts) h).2.objects =
      (installL ts h).2.objects := by rw [installV_arrayVal]
  have hlenN : (installV (.arrayVal ts) h).2.arrays.length =
      (installL ts h).2.arrays.length + 1 := by rw [hinstA]; simp
  have hlen2 : (installL ts h).2.arrays.length =
      h.arrays.length + e1.length := by rw [he1]; simp
  have hsz : sizeOf (JVar.arrayVal ts) = 1 + sizeOf ts := by simp_arith
  refine ⟨⟨e1 ++ [(installL ts h).1], by
      rw [hinstA, he1, List.append_assoc]⟩,
    ⟨f1, by rw [hinstB, hf1]⟩, ?_⟩
  intro h'' g hg hagree
  obtain ⟨g', rfl⟩ : ∃ g', g = g' + 1 :=
    ⟨g - 1, by have := one_le_sizeOf_list ts; omega⟩
  rw [hinstF, denoteV_arrayRef]
  have haddr : h''.arrays[(installL ts h).2.arrays.length]? =
      some (installL ts h).1 := by
    have step1 := hagree.1 (installL ts h).2.arrays.length
      (by omega) (by omega)
    rw [step1, hinstA]
    exact List.getElem?_concat_length _ _
  rw [haddr]
  have hbody : denoteL g' h'' (installL ts h).1 = some ts := by
    apply hden h'' g' (by omega)
    constructor
    · intro a ha1 ha2
      have step1 := hagree.1 a ha1 (by omega)
      rw [step1, hinstA]
      exact List.getElem?_append_left ha2
    · intro b hb1 hb2
      have step1 := hagree.2 b hb1 (by rw [hinstB]; omega)
      rw [step1, hinstB]
  simp [hbody]

theorem installOK_objectVal (qs : List (String × JVar))
    (hqs : installPOK qs) : installOK (.objectVal qs) := by
  intro h
  obtain ⟨⟨e1, he1⟩, ⟨f1, hf1⟩, hden⟩ := hqs h
  have hinstF : (installV (.objectVal qs) h).1 =
      .objectRef (installP qs h).2.objects.length := by
    rw [installV_objectVal]
  have hinstA : (installV (.objectVal qs) h).2.arrays =
      (installP qs h).2.arrays := by rw [installV_objectVal]
  have hinstB : (installV (.objectVal qs) h).2.objects =
      (installP qs h).2.objects ++ [(installP qs h).1] := by
    rw [installV_objectVal]
  have hlenN : (installV (.objectVal qs) h).2.objects.length =
      (installP qs h).2.objects.length + 1 := by rw [hinstB]; simp
  have hlen2 : (installP qs h).2.objects.length =
      h.objects.length + f1.length := by rw [hf1]; simp
  have hsz : sizeOf (JVar.objectVal qs) = 1 + sizeOf qs := by simp_arith
  refine ⟨⟨e1, by rw [hinstA, he1]⟩,
    ⟨f1 ++ [(installP qs h).1], by
      rw [hinstB, hf1, List.append_assoc]⟩, ?_⟩
  intro h'' g hg hagree
  obtain ⟨g', rfl⟩ : ∃ g', g = g' + 1 :=
    ⟨g - 1, by have := one_le_sizeOf_list qs; omega⟩
  rw [hinstF, denoteV_objectRef]
  have haddr : h''.objects[(installP qs h).2.objects.length]? =
      some (installP qs h).1 := by
    have step1 := hagree.2 (installP qs h).2.objects.length
      (by omega) (by omega)
    rw [step1, hinstB]
    exact List.getElem?_concat_length _ _
  rw [haddr]
  have hbody : denoteP g' h'' (installP qs h).1 = some qs := by
    apply hden h'' g' (by omega)
    constructor
    · intro a ha1 ha2
      have step1 := hagree.1 a ha1 (by rw [hinstA]; omega)
      rw [step1, hinstA]
    · intro b hb1 hb2
      have step1 := hagree.2 b hb1 (by omega)
      rw [step1, hinstB]
      exact List.getElem?_append_left hb2
  simp [hbody]

/-- Whatever value a heap-model `var` denotes, installing that value is
correct in the sense of `installOK`. -/
theorem denote_installOK :
    ∀ (f : Nat) (h0 : Heap) (v : HVal) (t : JVar),
      denoteV f h0 v = some t → installOK t := by
  intro f
  induction f with
  | zero =>
    intro h0 v t hden
    simp [denoteV] at hden
  | succ f ih =>
    intro h0 v t hden
    cases v with
    | void =>
      simp [denoteV] at hden
      subst hden
      exact installOK_scalar _ _ installV_void (fun g h'' => rfl)
    | boolVal b =>
      simp [denoteV] at hden
      subst hden
      exact installOK_scalar _ _ (installV_boolVal b) (fun g h'' => rfl)
    | intVal i =>
      simp [denoteV] at hden
      subst hden
      exact installOK_scalar _ _ (installV_intVal i) (fun g h'' => rfl)
    | int64Val i =>
      simp [denoteV] at hden
      subst hden
      exact installOK_scalar _ _ (installV_int64Val i) (fun g h'' => rfl)
    | doubleVal d =>
      simp [denoteV] at hden
      subst hden
      exact installOK_scalar _ _ (installV_doubleVal d) (fun g h'' => rfl)
    | stringVal s =>
      simp [denoteV] at hden
      subst hden
      exact installOK_scalar _ _ (installV_stringVal s) (fun g h'' => rfl)
    | arrayRef a =>
      rw [denoteV_arrayRef, Option.bind_eq_some] at hden
      obtain ⟨xs, hxs, hmap⟩ := hden
      rw [Option.map_eq_some'] at hmap
      obtain ⟨ts, hts, rfl⟩ := hmap
      exact installOK_arrayVal ts (installLOK_of f h0 (ih h0) xs ts hts)
    | objectRef b =>
      rw [denoteV_objectRef, Option.bind_eq_some] at hden
      obtain ⟨ps, hps, hmap⟩ := hden
      rw [Option.map_eq_some'] at hmap
      obtain ⟨qs, hqs, rfl⟩ := hmap
      exact installOK_objectVal qs (installPOK_of f h0 (ih h0) ps qs hqs)

/-- C3 — For every variant value v (any heap-model var whose observable
value is defined), freeze() always succeeds and returns an owned
snapshot holding a deep copy of v; mutating any array or object entity
of the source document afterwards leaves the snapshot's observable
value unchanged; and clone() on the frozen snapshot produces a further
independent deep copy with the same value. -/
theorem freeze_deep_copy (f : Nat) (h : Heap) (v : HVal) (t : JVar)
    (hden : denoteV f h v = some t) :
    ∃ v' h',
      freezeH f h v = some (v', h') ∧
      denoteV (sizeOf t) h' v' = some t ∧
      (∀ a xs, a < h.arrays.length →
        denoteV (sizeOf t) (h'.setArray a xs) v' = some t) ∧
      (∀ b ps, b < h.objects.length →
        denoteV (sizeOf t) (h'.setObject b ps) v' = some t) ∧
      ∃ v2 h2, frozenCloneH (sizeOf t) h' v' = some (v2, h2) ∧
        denoteV (sizeOf t) h2 v2 = some t := by
  have hOK := denote_installOK f h v t hden
  obtain ⟨⟨e1, he1⟩, ⟨f1, hf1⟩, hd⟩ := hOK h
  have h1len : h.arrays.length ≤ (installV t h).2.arrays.length := by
    rw [he1]; simp
  have h2len : h.objects.length ≤ (installV t h).2.objects.length := by
    rw [hf1]; simp
  have hsnap : denoteV (sizeOf t) (installV t h).2 (installV t h).1 =
      some t :=
    hd (installV t h).2 (sizeOf t) le_rfl (agreeOn_refl _ _ _ _ _)
  refine ⟨(installV t h).1, (installV t h).2, ?_, hsnap, ?_, ?_, ?_⟩
  · simp [freezeH, varClone, hden]
  · intro a xs ha
    apply hd _ (sizeOf t) le_rfl
    constructor
    · intro a' ha1 _
      exact List.getElem?_set_ne (by omega)
    · intro b _ _
      rfl
  · intro b ps hb
    apply hd _ (sizeOf t) le_rfl
    constructor
    · intro a _ _
      rfl
    · intro b' hb1 _
      exact List.getElem?_set_ne (by omega)
  · have hOK2 := denote_installOK (sizeOf t) (installV t h).2
      (installV t h).1 t hsnap
    obtain ⟨_, _, hd2⟩ := hOK2 (installV t h).2
    refine ⟨(installV t (installV t h).2).1, (installV t (installV t h).2).2,
      ?_, hd2 _ (sizeOf t) le_rfl (agreeOn_refl _ _ _ _ _)⟩
    simp [frozenCloneH, varClone, hsnap]

/-- Concrete one-element-array document used to instantiate C3. -/
def demoHeap : Heap := ⟨[[HVal.boolVal true]], []⟩

/-- Witness for C3 at a concrete document. -/
theorem freeze_deep_copy_witness :
    ∃ v' h',
      freezeH 2 demoHeap (HVal.arrayRef 0) = some (v', h') ∧
      denoteV (sizeOf (JVar.arrayVal [JVar.boolVal true])) h' v' =
        some (JVar.arrayVal [JVar.boolVal true]) ∧
      (∀ a xs, a < demoHeap.arrays.length →
        denoteV (sizeOf (JVar.arrayVal [JVar.boolVal true]))
          (h'.setArray a xs) v' = some (JVar.arrayVal [JVar.boolVal true])) := by
  obtain ⟨v', h', hfr, hval, hmut, _, _⟩ :=
    freeze_deep_copy 2 demoHeap (HVal.arrayRef 0)
      (JVar.arrayVal [JVar.boolVal true]) (by rfl)
  exact ⟨v', h', hfr, hval, hmut⟩

/-!
## Supporting lemmas for the claims
-/

/-- Normal completion (no exception) of a throwing constructor. -/
def exceptOk {α : Type} (e : Except String α) : Bool :=
  match e with
  | .ok _ => true
  | .error _ => false

theorem findScan_le (props : List (String × JVar)) (name : String) :
    findScan props name ≤ props.length := by
  induction props with
  | nil => simp [findScan]
  | cons p rest ih =>
    obtain ⟨n, t⟩ := p
    simp only [findScan, List.length_cons]
    split
    · exact Nat.zero_le _
    · omega

theorem findScan_eq_length_iff (props : List (String × JVar))
    (name : String) :
    findScan props name = props.length ↔ ∀ p ∈ props, p.1 ≠ name := by
  induction props with
  | nil => simp [findScan]
  | cons p rest ih =>
    obtain ⟨n, t⟩ := p
    simp only [findScan, List.length_cons]
    split
    · rename_i heq
      constructor
      · intro h
        exact absurd h.symm (Nat.succ_ne_zero _)
      · intro h
        exact absurd heq (h (n, t) (List.mem_cons_self _ _))
    · rename_i hne
      constructor
      · intro h
        have h' : findScan rest name = rest.length := by omega
        intro p hp
        rcases List.mem_cons.mp hp with h1 | h1
        · rw [h1]; exact hne
        · exact (ih.mp h') p h1
      · intro h
        have h' : ∀ p ∈ rest, p.1 ≠ name :=
          fun p hp => h p (List.mem_cons_of_mem _ hp)
        rw [ih.mpr h']

theorem findScan_hit (props : List (String × JVar)) (name : String)
    (hlt : findScan props name < props.length) :
    ∃ tv, props[findScan props name]? = some (name, tv) := by
  induction props with
  | nil => simp [findScan] at hlt
  | cons p rest ih =>
    obtain ⟨n, t⟩ := p
    simp only [findScan] at hlt ⊢
    split
    · rename_i heq
      exact ⟨t, by rw [heq]; simp⟩
    · rename_i hne
      split at hlt
      · rename_i heq
        exact absurd heq hne
      · simp only [List.length_cons] at hlt
        have hlt' : findScan rest name < rest.length := by omega
        obtain ⟨tv, htv⟩ := ih hlt'
        exact ⟨tv, by simpa using htv⟩

theorem findScan_first (props : List (String × JVar)) (name : String) :
    ∀ k < findScan props name, ∀ p, props[k]? = some p → p.1 ≠ name := by
  induction props with
  | nil =>
    intro k hk
    simp [findScan] at hk
  | cons p rest ih =>
    obtain ⟨n, t⟩ := p
    intro k hk q hq
    simp only [findScan] at hk
    split at hk
    · omega
    · rename_i hne
      match k, hq with
      | 0, hq =>
        simp at hq
        rw [← hq]
        exact hne
      | k' + 1, hq =>
        simp at hq
        exact ih k' (by omega) q hq

theorem arrayIterSteps_some (k i : Nat) :
    arrayIterSteps k (some i) = some (i + k) := by
  induction k generalizing i with
  | zero => simp [arrayIterSteps]
  | succ k ih =>
    simp only [arrayIterSteps, arrayIterNext, Option.map_some']
    rw [ih]
    congr 1
    omega

/-!
## The claims
-/

/-- C1 — For every variant value v, `isArray(v)` is true iff constructing
a `JuceVarArray` from v completes without throwing, and `isObject(v)` is
true iff constructing a `JuceVarObject` from v completes without
throwing; construction over a variant of the wrong shape throws. -/
theorem view_construction_iff_type (v : JVar) :
    exceptOk (mkJuceVarArray v) = (JuceVarValue.mk v).isArray ∧
    exceptOk (mkJuceVarObject v) = (JuceVarValue.mk v).isObject ∧
    ((JuceVarValue.mk v).isArray = false →
      mkJuceVarArray v = Except.error "Value is not an array.") ∧
    ((JuceVarValue.mk v).isObject = false →
      mkJuceVarObject v = Except.error "Value is not an object.") := by
  cases v <;>
    simp [mkJuceVarArray, mkJuceVarObject, exceptOk,
      JuceVarValue.isArray, JuceVarValue.isObject, JVar.isArray,
      JVar.isObject]

/-- Witness for C1: a string is not an array (construction throws), an
array var is (construction succeeds). -/
theorem view_construction_iff_type_witness :
    mkJuceVarArray (JVar.stringVal "x") =
      Except.error "Value is not an array." ∧
    exceptOk (mkJuceVarArray (JVar.arrayVal [])) = true :=
  ⟨(view_construction_iff_type (JVar.stringVal "x")).2.2.1 rfl,
    (view_construction_iff_type (JVar.arrayVal [])).1.trans rfl⟩

/-- C2 — Each typed extractor returns true and writes the stored native
value exactly when the stored type matches, and returns false leaving
the output untouched otherwise (no coercion). -/
theorem typed_extractors_exact (v : JVar) (b0 : Bool) (d0 : Nat) (i0 : Int)
    (s0 : String) :
    ((JuceVarValue.mk v).getBool b0).1 = (JuceVarValue.mk v).isBool ∧
    ((JuceVarValue.mk v).isBool = false →
      ((JuceVarValue.mk v).getBool b0).2 = b0) ∧
    (∀ b, v = .boolVal b → (JuceVarValue.mk v).getBool b0 = (true, b)) ∧
    ((JuceVarValue.mk v).getDouble d0).1 = (JuceVarValue.mk v).isDouble ∧
    ((JuceVarValue.mk v).isDouble = false →
      ((JuceVarValue.mk v).getDouble d0).2 = d0) ∧
    (∀ d, v = .doubleVal d → (JuceVarValue.mk v).getDouble d0 = (true, d)) ∧
    ((JuceVarValue.mk v).getInteger i0).1 = (JuceVarValue.mk v).isInteger ∧
    ((JuceVarValue.mk v).isInteger = false →
      ((JuceVarValue.mk v).getInteger i0).2 = i0) ∧
    (∀ i, v = .intVal i ∨ v = .int64Val i →
      (JuceVarValue.mk v).getInteger i0 = (true, i)) ∧
    ((JuceVarValue.mk v).getString s0).1 = (JuceVarValue.mk v).isString ∧
    ((JuceVarValue.mk v).isString = false →
      ((JuceVarValue.mk v).getString s0).2 = s0) ∧
    (∀ s, v = .stringVal s → (JuceVarValue.mk v).getString s0 = (true, s)) := by
  cases v <;>
    simp [JuceVarValue.getBool, JuceVarValue.getDouble,
      JuceVarValue.getInteger, JuceVarValue.getString,
      JuceVarValue.isBool, JuceVarValue.isDouble, JuceVarValue.isInteger,
      JuceVarValue.isString, JVar.isBool, JVar.isDouble, JVar.isInt,
      JVar.isInt64, JVar.isString, JVar.toBool, JVar.toDouble,
      JVar.toInt64, JVar.toStdString]

/-- Witness for C2: `getBool` on a string fails leaving the output
untouched; `getBool` on a bool succeeds with the stored value. -/
theorem typed_extractors_exact_witness :
    ((JuceVarValue.mk (JVar.stringVal "x")).getBool false).2 = false ∧
    (JuceVarValue.mk (JVar.boolVal true)).getBool false = (true, true) :=
  ⟨(typed_extractors_exact (JVar.stringVal "x") false 0 0 "").2.1 rfl,
    (typed_extractors_exact (JVar.boolVal true) false 0 0 "").2.2.1
      true rfl⟩

/-- C4 — For every object view and name, `find(name)` returns an
iterator dereferencing to the pair (name, value) iff a member with
exactly that name exists (case-sensitive linear scan in native member
order, first match wins); otherwise `find(name)` equals `end()`. -/
theorem object_find_spec (o : JuceVarObject) (name : String) :
    (o.value.getDynamicObject = none → o.find name = o.end_) ∧
    ∀ props, o.value.getDynamicObject = some props →
      ((∀ p ∈ props, p.1 ≠ name) →
        o.find name = o.end_ ∧ o.find name = some props.length) ∧
      ((∃ p ∈ props, p.1 = name) →
        ∃ j tv, o.find name = some j ∧ j < props.length ∧
          props[j]? = some (name, tv) ∧
          (∀ k, k < j → ∀ p, props[k]? = some p → p.1 ≠ name) ∧
          o.derefIter (o.find name) =
            some ((name, mkAdapter tv) : String × JuceVarAdapter) ∧
          o.find name ≠ o.end_) := by
  constructor
  · intro habs
    simp [JuceVarObject.find, JuceVarObject.end_, habs]
  · intro props hprops
    have hfind : o.find name = some (findScan props name) := by
      simp [JuceVarObject.find, hprops]
    have hend : o.end_ = some props.length := by
      simp [JuceVarObject.end_, hprops]
    constructor
    · intro hmiss
      have : findScan props name = props.length :=
        (findScan_eq_length_iff props name).mpr hmiss
      rw [hfind, hend, this]
      exact ⟨rfl, rfl⟩
    · intro hhit
      have hne : ¬ ∀ p ∈ props, p.1 ≠ name := by
        obtain ⟨p, hp, hp1⟩ := hhit
        intro hall
        exact hall p hp hp1
      have hlt : findScan props name < props.length := by
        have hle := findScan_le props name
        have : findScan props name ≠ props.length := fun h =>
          hne ((findScan_eq_length_iff props name).mp h)
        omega
      obtain ⟨tv, htv⟩ := findScan_hit props name hlt
      refine ⟨findScan props name, tv, hfind, hlt, htv,
        findScan_first props name, ?_, ?_⟩
      · rw [hfind]
        simp [JuceVarObject.derefIter, hprops, htv]
      · rw [hfind, hend]
        intro hcontra
        have : findScan props name = props.length :=
          Option.some.inj hcontra
        omega

/-- Witness for C4 at a concrete object: `find "b"` hits the second
member and dereferences to it; `find "B"` (different case) misses and
returns `end()`. -/
theorem object_find_spec_witness :
    (JuceVarObject.mk
        (.objectVal [("a", .intVal 1), ("b", .boolVal true)])).find "b" =
      some 1 ∧
    (JuceVarObject.mk
        (.objectVal [("a", .intVal 1), ("b", .boolVal true)])).derefIter
        ((JuceVarObject.mk
          (.objectVal [("a", .intVal 1), ("b", .boolVal true)])).find "b") =
      some (("b", mkAdapter (.boolVal true)) : String × JuceVarAdapter) ∧
    (JuceVarObject.mk
        (.objectVal [("a", .intVal 1), ("b", .boolVal true)])).find "B" =
      (JuceVarObject.mk
        (.objectVal [("a", .intVal 1), ("b", .boolVal true)])).end_ := by
  have h := object_find_spec
    (JuceVarObject.mk (.objectVal [("a", .intVal 1), ("b", .boolVal true)]))
    "b"
  have hB := object_find_spec
    (JuceVarObject.mk (.objectVal [("a", .intVal 1), ("b", .boolVal true)]))
    "B"
  obtain ⟨j, tv, hj, hjlt, hjget, hfirst, hderef, hne⟩ :=
    ((h.2 _ rfl).2 ⟨("b", .boolVal true), by simp, rfl⟩)
  have hj1 : j = 1 := by
    have h0 : ¬ (("a", JVar.intVal 1) : String × JVar).1 = "b" := by decide
    match j, hjget with
    | 0, hjget => simp at hjget
    | 1, hjget => rfl
    | j + 2, hjget => simp at hjlt
  subst hj1
  have htv : tv = .boolVal true := by
    simp at hjget
    exact hjget.symm ▸ rfl
  refine ⟨hj, ?_, ((hB.2 _ rfl).1 (by decide)).1⟩
  rw [hderef, htv]

/-- C5 — For every array value with n elements, the view's `size()` is
n, and stepping the iterator from `begin()` reaches `end()` after
exactly n increments, never earlier, dereferencing at step i to a value
view of element i in original document order. -/
theorem array_iteration_spec (xs : List JVar) (a : JuceVarArray)
    (hmk : mkJuceVarArray (.arrayVal xs) = Except.ok a) :
    a.size = xs.length ∧
    a.begin = some 0 ∧
    a.end_ = some xs.length ∧
    (∀ i, arrayIterSteps i a.begin = some i) ∧
    arrayIterSteps xs.length a.begin = a.end_ ∧
    (∀ i, i < xs.length → arrayIterSteps i a.begin ≠ a.end_) ∧
    (∀ i x, xs[i]? = some x →
      a.derefIter (some i) = some (mkAdapter x)) := by
  have ha : a = ⟨.arrayVal xs⟩ := by
    simp [mkJuceVarArray, JVar.isArray] at hmk
    exact hmk.symm
  subst ha
  have hbeg : JuceVarArray.begin ⟨.arrayVal xs⟩ = some 0 := rfl
  have hend : JuceVarArray.end_ ⟨.arrayVal xs⟩ = some xs.length := rfl
  refine ⟨rfl, hbeg, hend, ?_, ?_, ?_, ?_⟩
  · intro i
    rw [hbeg, arrayIterSteps_some, Nat.zero_add]
  · rw [hbeg, hend, arrayIterSteps_some, Nat.zero_add]
  · intro i hi
    rw [hbeg, hend, arrayIterSteps_some]
    simp
    omega
  · intro i x hx
    simp [JuceVarArray.derefIter, JVar.getArray, hx]

/-- Witness for C5 at a two-element array. -/
theorem array_iteration_spec_witness :
    (JuceVarArray.mk (.arrayVal [.boolVal true, .void])).size = 2 ∧
    arrayIterSteps 2 (JuceVarArray.mk (.arrayVal [.boolVal true, .void])).begin =
      (JuceVarArray.mk (.arrayVal [.boolVal true, .void])).end_ ∧
    (JuceVarArray.mk (.arrayVal [.boolVal true, .void])).derefIter (some 0) =
      some (mkAdapter (.boolVal true)) := by
  obtain ⟨hsz, _, _, _, hreach, _, hderef⟩ :=
    array_iteration_spec [.boolVal true, .void]
      (JuceVarArray.mk (.arrayVal [.boolVal true, .void])) rfl
  exact ⟨hsz, hreach, hderef 0 (.boolVal true) rfl⟩

/-- C6 — Default-constructed array and object views reference the shared
empty singletons, have size 0 and satisfy `begin() == end()`. -/
theorem default_views_empty :
    JuceVarArray.default.value = JuceVarArray.emptyArray ∧
    JuceVarArray.default.size = 0 ∧
    JuceVarArray.default.begin = JuceVarArray.default.end_ ∧
    JuceVarObject.default.value = JuceVarObject.emptyObject ∧
    JuceVarObject.default.size = 0 ∧
    JuceVarObject.default.begin = JuceVarObject.default.end_ :=
  ⟨rfl, rfl, rfl, rfl, rfl, rfl⟩

/-- C7 — An object view's `size()` returns the member count when the
underlying `DynamicObject` is present, and 0 when it is absent. -/
theorem object_size_graceful (o : JuceVarObject) :
    (∀ props, o.value.getDynamicObject = some props →
      o.size = props.length) ∧
    (o.value.getDynamicObject = none → o.size = 0) := by
  constructor
  · intro props hp
    simp [JuceVarObject.size, hp]
  · intro hp
    simp [JuceVarObject.size, hp]

/-- Witness for C7: member count on a present `DynamicObject`, 0 on an
absent one. -/
theorem object_size_graceful_witness :
    (JuceVarObject.mk (.objectVal [("a", .void)])).size = 1 ∧
    (JuceVarObject.mk .otherObject).size = 0 :=
  ⟨(object_size_graceful (JuceVarObject.mk (.objectVal [("a", .void)]))).1
      [("a", .void)] rfl,
    (object_size_graceful (JuceVarObject.mk .otherObject)).2 rfl⟩

/-- C8 — The static strict-types capability flag is always true; the
adapter indeed keeps integer and floating-point classifications
disjoint (no value is both). -/
theorem strict_types_flag :
    JuceVarValue.hasStrictTypes = true ∧
    ∀ v : JuceVarValue, (v.isInteger && v.isDouble) = false := by
  refine ⟨rfl, ?_⟩
  intro v
  obtain ⟨val⟩ := v
  cases val <;>
    simp [JuceVarValue.isInteger, JuceVarValue.isDouble, JVar.isInt,
      JVar.isInt64, JVar.isDouble]

/-- C9 — `getObjectSize` succeeds exactly when the underlying object is
a `DynamicObject`, while `isObject` is true for any stored object: on a
non-`DynamicObject` object value, `isObject` is true, `getObjectSize`
fails leaving the output untouched, yet the object view (whose
construction succeeds) reports size 0. -/
theorem object_size_vs_is_object (v : JVar) (n : Nat) :
    ((JuceVarValue.mk v).getObjectSize n).1 = (v.getDynamicObject).isSome ∧
    (v.getDynamicObject = none →
      (JuceVarValue.mk v).getObjectSize n = (false, n)) ∧
    (JuceVarValue.mk JVar.otherObject).isObject = true ∧
    (JuceVarValue.mk JVar.otherObject).getObjectSize n = (false, n) ∧
    mkJuceVarObject JVar.otherObject =
      Except.ok (JuceVarObject.mk JVar.otherObject) ∧
    (JuceVarObject.mk JVar.otherObject).size = 0 := by
  refine ⟨?_, ?_, rfl, rfl, rfl, rfl⟩
  · cases v <;> simp [JuceVarValue.getObjectSize, JVar.getDynamicObject]
  · intro hnone
    simp [JuceVarValue.getObjectSize, hnone]

/-- Witness for C9 at a non-`DynamicObject` object value. -/
theorem object_size_vs_is_object_witness :
    (JuceVarValue.mk JVar.otherObject).getObjectSize 5 = (false, 5) ∧
    (JuceVarValue.mk JVar.otherObject).isObject = true :=
  ⟨(object_size_vs_is_object JVar.otherObject 5).2.1 rfl,
    (object_size_vs_is_object JVar.otherObject 5).2.2.1⟩

/-- C10 — For an object view whose underlying `DynamicObject` is absent,
`begin()` and `end()` are both the null iterator (so iteration visits no
members, consistently with size 0), and dereferencing the null iterator
is total, yielding the pair ("", default adapter). -/
theorem object_view_absent_underlying (o : JuceVarObject)
    (habs : o.value.getDynamicObject = none) :
    o.begin = none ∧
    o.end_ = none ∧
    o.begin = o.end_ ∧
    o.size = 0 ∧
    o.derefIter none =
      some (("", JuceVarAdapter.default) : String × JuceVarAdapter) := by
  refine ⟨?_, ?_, ?_, ?_, rfl⟩ <;>
    simp [JuceVarObject.begin, JuceVarObject.end_, JuceVarObject.size, habs]

/-- Witness for C10 at a non-`DynamicObject` object value. -/
theorem object_view_absent_underlying_witness :
    (JuceVarObject.mk JVar.otherObject).begin =
      (JuceVarObject.mk JVar.otherObject).end_ ∧
    (JuceVarObject.mk JVar.otherObject).derefIter none =
      some (("", JuceVarAdapter.default) : String × JuceVarAdapter) :=
  ⟨(object_view_absent_underlying (JuceVarObject.mk JVar.otherObject)
      rfl).2.2.1,
    (object_view_absent_underlying (JuceVarObject.mk JVar.otherObject)
      rfl).2.2.2.2⟩
